import Mathlib

/-!
Shallow embedding of the traversal core of the `aiml-lab` repository
(files `0901AI231019_File1.py` and `0901AI231019_File2.py`).

The Python generators (`GraphVisualizer.get_bfs_gen`, `GraphVisualizer.get_dfs_gen`,
`MazeVisualizer.get_bfs_gen`, `MazeVisualizer.get_dfs_gen`) are embedded as
fuel-indexed recursive functions that return the full list of yielded step
tuples.  A Python `yield (kind, node, visited, fourth)` becomes one element of
the returned list, holding the values those expressions have at the moment of
the yield (the driver consumes each yielded tuple before the generator
resumes, so value-at-yield is the observable content of each step).

Python's `set` of visited nodes is embedded as a duplicate-free `List`
(insertion appends only when the element is absent); all properties stated
about it are membership/subset properties, never list-order properties.
A Python `list` used as a stack (`.pop()` from the end, `.append` to the end)
is kept internally in reversed order (top of stack at the head) and every
emitted snapshot reverses it back, so snapshots agree with Python's
`list(stack)`.  Dictionary lookup `GRAPH[node]` is embedded as association
list lookup; a missing key (Python `KeyError`) returns the distinguished
result `RunResult.keyError`; running out of fuel gives `RunResult.outOfFuel`
(which never happens for the fuels used on the concrete data).
-/

/-- Tag of a yielded step: first component of the Python tuple
(`"init"`, `"visit"`, `"queue"`, `"stack"`, `"discover"`, `"done"`, `"fail"`). -/
inductive StepKind : Type where
  | init
  | visit
  | queued
  | stacked
  | discover
  | done
  | fail
deriving DecidableEq, Repr

/-- A step of the plain-graph generators of File1: the Python tuple
`(kind, node, visited, frontier)` where `frontier` is `list(queue)` or
`list(stack)` at the yield. -/
structure GStep (α : Type) : Type where
  kind : StepKind
  node : Option α
  visited : List α
  frontier : List α
deriving DecidableEq, Repr

/-- Fourth component of a maze-generator step of File2: Python yields
`list(queue)` (a list of `(node, path)` pairs) at `init`, a `path`
(list of cells) at `visit`/`discover`/`done`, and `[]` at `fail`. -/
inductive MPayload (α : Type) : Type where
  | entries (l : List (α × List α))
  | cells (l : List α)
deriving DecidableEq, Repr

/-- A step of the maze generators of File2: the Python tuple
`(kind, node, visited, fourth)`. -/
structure MStep (α : Type) : Type where
  kind : StepKind
  node : Option α
  visited : List α
  payload : MPayload α
deriving DecidableEq, Repr

/-- Result of running a generator to exhaustion under a fuel bound. -/
inductive RunResult (σ : Type) : Type where
  | ok (steps : List σ)
  | keyError
  | outOfFuel
deriving DecidableEq, Repr

/-- The steps of a completed run (empty for error results). -/
def RunResult.toSteps {σ : Type} : RunResult σ → List σ
  | .ok steps => steps
  | _ => []

/-- Whether the run completed normally. -/
def RunResult.isOk {σ : Type} : RunResult σ → Bool
  | .ok _ => true
  | _ => false

/-- Python dict lookup `g[k]` over the association-list embedding of a dict. -/
def lookupG {α β : Type} [DecidableEq α] (g : List (α × β)) (k : α) : Option β :=
  match g with
  | [] => none
  | (k₁, v) :: rest => if k = k₁ then some v else lookupG rest k

namespace GraphVisualizer

/-- Inner `for neighbor in GRAPH[node]` loop of `get_bfs_gen` (File1 lines
205-209): each undiscovered neighbor is added to `visited`, appended to the
queue, and a `queue` step is yielded with the updated snapshots.  Returns the
final `visited`, the final queue, and the yielded steps in order. -/
def bfsExpand {α : Type} [DecidableEq α] (neighbors visited queue : List α) :
    List α × List α × List (GStep α) :=
  match neighbors with
  | [] => (visited, queue, [])
  | nb :: rest =>
    if nb ∈ visited then bfsExpand rest visited queue
    else
      let v := visited ++ [nb]
      let q := queue ++ [nb]
      let (v₁, q₁, steps) := bfsExpand rest v q
      (v₁, q₁, ⟨.queued, some nb, v, q⟩ :: steps)

/-- The `while queue:` loop of `get_bfs_gen` (File1 lines 200-210), with the
trailing `done` yield.  The queue front is the list head (Python `popleft`). -/
def bfsLoop {α : Type} [DecidableEq α] (g : List (α × List α)) :
    Nat → List α → List α → RunResult (GStep α)
  | 0, _, _ => .outOfFuel
  | _ + 1, [], visited => .ok [⟨.done, none, visited, []⟩]
  | fuel + 1, node :: queue, visited =>
    match lookupG g node with
    | none => .keyError
    | some nbs =>
      let (v₁, q₁, dsteps) := bfsExpand nbs visited queue
      match bfsLoop g fuel q₁ v₁ with
      | .ok rest => .ok (⟨.visit, some node, visited, queue⟩ :: (dsteps ++ rest))
      | e => e

/-- Function `GraphVisualizer.get_bfs_gen` (File1 lines 194-210): `visited = {start}`,
`queue = deque([start])`, an `init` yield, then the main loop. -/
def get_bfs_gen {α : Type} [DecidableEq α] (g : List (α × List α)) (start : α)
    (fuel : Nat) : RunResult (GStep α) :=
  match bfsLoop g fuel [start] [start] with
  | .ok rest => .ok (⟨.init, none, [start], [start]⟩ :: rest)
  | e => e

/-- Inner `for neighbor in reversed(GRAPH[node])` loop of `get_dfs_gen`
(File1 lines 224-227); `neighbors` is already the reversed adjacency list.
The stack is kept reversed (top first); snapshots reverse it back. -/
def dfsExpand {α : Type} [DecidableEq α] (neighbors visited stackRev : List α) :
    List α × List (GStep α) :=
  match neighbors with
  | [] => (stackRev, [])
  | nb :: rest =>
    if nb ∈ visited then dfsExpand rest visited stackRev
    else
      let s := nb :: stackRev
      let (s₁, steps) := dfsExpand rest visited s
      (s₁, ⟨.stacked, some nb, visited, s.reverse⟩ :: steps)

/-- The `while stack:` loop of `get_dfs_gen` (File1 lines 217-228), with the
trailing `done` yield.  `stack.pop()` removes the head of the reversed
representation; an already-visited pop is skipped silently. -/
def dfsLoop {α : Type} [DecidableEq α] (g : List (α × List α)) :
    Nat → List α → List α → RunResult (GStep α)
  | 0, _, _ => .outOfFuel
  | _ + 1, [], visited => .ok [⟨.done, none, visited, []⟩]
  | fuel + 1, node :: stackRev, visited =>
    if node ∈ visited then dfsLoop g fuel stackRev visited
    else
      let v := visited ++ [node]
      match lookupG g node with
      | none => .keyError
      | some nbs =>
        let (s₁, dsteps) := dfsExpand nbs.reverse v stackRev
        match dfsLoop g fuel s₁ v with
        | .ok rest => .ok (⟨.visit, some node, v, stackRev.reverse⟩ :: (dsteps ++ rest))
        | e => e

/-- Function `GraphVisualizer.get_dfs_gen` (File1 lines 212-228): `visited = set()`,
`stack = [start]`, an `init` yield, then the main loop. -/
def get_dfs_gen {α : Type} [DecidableEq α] (g : List (α × List α)) (start : α)
    (fuel : Nat) : RunResult (GStep α) :=
  match dfsLoop g fuel [start] [] with
  | .ok rest => .ok (⟨.init, none, [], [start]⟩ :: rest)
  | e => e

end GraphVisualizer

/-- The fixed graph of File1 line 44:
`GRAPH = {"A": ["B","C"], "B": ["D","E"], "C": ["F"], "D": [], "E": ["F"], "F": []}`. -/
def GRAPH : List (String × List String) :=
  [("A", ["B", "C"]), ("B", ["D", "E"]), ("C", ["F"]),
   ("D", []), ("E", ["F"]), ("F", [])]

/-- The keys of `GRAPH`, in dict order. -/
def graphKeys : List String := GRAPH.map Prod.fst

/-- The traversal order of a run: the nodes carried by its `visit` steps, in
order (File1 appends exactly these to `self.order`). -/
def gOrder {α : Type} (steps : List (GStep α)) : List α :=
  steps.filterMap (fun s => if s.kind = .visit then s.node else none)

namespace MazeVisualizer

/-- Inner `for neighbor in self.graph[node]` loop of the maze `get_bfs_gen`
(File2 lines 181-185): each undiscovered neighbor is added to `visited`,
`(neighbor, path + [neighbor])` is appended to the queue, and a `discover`
step is yielded carrying the updated visited set and the current `path`. -/
def mazeBfsExpand {α : Type} [DecidableEq α] (neighbors visited : List α)
    (queue : List (α × List α)) (path : List α) :
    List α × List (α × List α) × List (MStep α) :=
  match neighbors with
  | [] => (visited, queue, [])
  | nb :: rest =>
    if nb ∈ visited then mazeBfsExpand rest visited queue path
    else
      let v := visited ++ [nb]
      let q := queue ++ [(nb, path ++ [nb])]
      let (v₁, q₁, steps) := mazeBfsExpand rest v q path
      (v₁, q₁, ⟨.discover, some nb, v, .cells path⟩ :: steps)

/-- The `while queue:` loop of the maze `get_bfs_gen` (File2 lines 170-186):
pop `(node, path)` from the front, yield `visit`; if `node == goal` yield
`done` and return; otherwise expand neighbors; on frontier exhaustion yield
`fail`. -/
def mazeBfsLoop {α : Type} [DecidableEq α] (g : List (α × List α)) (goal : α) :
    Nat → List (α × List α) → List α → RunResult (MStep α)
  | 0, _, _ => .outOfFuel
  | _ + 1, [], visited => .ok [⟨.fail, none, visited, .cells []⟩]
  | fuel + 1, (node, path) :: queue, visited =>
    if node = goal then
      .ok [⟨.visit, some node, visited, .cells path⟩,
           ⟨.done, some node, visited, .cells path⟩]
    else
      match lookupG g node with
      | none => .keyError
      | some nbs =>
        let (v₁, q₁, dsteps) := mazeBfsExpand nbs visited queue path
        match mazeBfsLoop g goal fuel q₁ v₁ with
        | .ok rest => .ok (⟨.visit, some node, visited, .cells path⟩ :: (dsteps ++ rest))
        | e => e

/-- Function `MazeVisualizer.get_bfs_gen` (File2 lines 165-186): `visited = {start}`,
`queue = deque([(start, [start])])`, an `init` yield carrying `start` and
`list(queue)`, then the main loop; the goal is the fixed `EXIT_POS` of the
visualizer's configuration, kept as a parameter here. -/
def get_bfs_gen {α : Type} [DecidableEq α] (g : List (α × List α)) (goal start : α)
    (fuel : Nat) : RunResult (MStep α) :=
  match mazeBfsLoop g goal fuel [(start, [start])] [start] with
  | .ok rest => .ok (⟨.init, some start, [start], .entries [(start, [start])]⟩ :: rest)
  | e => e

/-- Inner `for neighbor in reversed(self.graph[node])` loop of the maze
`get_dfs_gen` (File2 lines 205-208); `neighbors` is already the reversed
adjacency list.  The stack is kept reversed (top first); pushes cons at the
head. -/
def mazeDfsExpand {α : Type} [DecidableEq α] (neighbors visited : List α)
    (stackRev : List (α × List α)) (path : List α) :
    List (α × List α) × List (MStep α) :=
  match neighbors with
  | [] => (stackRev, [])
  | nb :: rest =>
    if nb ∈ visited then mazeDfsExpand rest visited stackRev path
    else
      let s := (nb, path ++ [nb]) :: stackRev
      let (s₁, steps) := mazeDfsExpand rest visited s path
      (s₁, ⟨.discover, some nb, visited, .cells path⟩ :: steps)

/-- The `while stack:` loop of the maze `get_dfs_gen` (File2 lines 192-209):
pop `(node, path)`; skip if already visited, otherwise mark visited, yield
`visit`, short-circuit with `done` at the goal, else expand; on frontier
exhaustion yield `fail`. -/
def mazeDfsLoop {α : Type} [DecidableEq α] (g : List (α × List α)) (goal : α) :
    Nat → List (α × List α) → List α → RunResult (MStep α)
  | 0, _, _ => .outOfFuel
  | _ + 1, [], visited => .ok [⟨.fail, none, visited, .cells []⟩]
  | fuel + 1, (node, path) :: stackRev, visited =>
    if node ∈ visited then mazeDfsLoop g goal fuel stackRev visited
    else
      let v := visited ++ [node]
      if node = goal then
        .ok [⟨.visit, some node, v, .cells path⟩,
             ⟨.done, some node, v, .cells path⟩]
      else
        match lookupG g node with
        | none => .keyError
        | some nbs =>
          let (s₁, dsteps) := mazeDfsExpand nbs.reverse v stackRev path
          match mazeDfsLoop g goal fuel s₁ v with
          | .ok rest => .ok (⟨.visit, some node, v, .cells path⟩ :: (dsteps ++ rest))
          | e => e

/-- Function `MazeVisualizer.get_dfs_gen` (File2 lines 188-209): `visited = set()`,
`stack = [(start, [start])]`, then directly the main loop — this generator
yields no `init` step. -/
def get_dfs_gen {α : Type} [DecidableEq α] (g : List (α × List α)) (goal start : α)
    (fuel : Nat) : RunResult (MStep α) :=
  mazeDfsLoop g goal fuel [(start, [start])] []

end MazeVisualizer

/-- The fixed maze of File2 line 44: `MAZE_GRID = [[0,0,0],[0,1,0],[0,0,0]]`. -/
def MAZE_GRID : List (List Nat) := [[0, 0, 0], [0, 1, 0], [0, 0, 0]]

/-- Constant of File2 line 45: `START_POS = (0, 0)`. -/
def START_POS : Nat × Nat := (0, 0)

/-- Constant of File2 line 46: `EXIT_POS = (2, 2)`. -/
def EXIT_POS : Nat × Nat := (2, 2)

/-- Python `len(grid)` — number of rows. -/
def rowsOf (grid : List (List Nat)) : Nat := grid.length

/-- Python `len(grid[0])` — number of columns (of the first row). -/
def colsOf (grid : List (List Nat)) : Nat := (grid.headD []).length

/-- Python `grid[r][c]`.  Out-of-range access defaults to `1` (wall); every access
`create_maze_graph` performs is bounds-checked first, and on a well-formed
rectangular grid every in-bounds access returns the actual entry. -/
def cellAt (grid : List (List Nat)) (r c : Nat) : Nat := (grid.getD r []).getD c 1

/-- The offsets `[(-1, 0), (1, 0), (0, -1), (0, 1)]` of File2 line 121. -/
def deltas : List (Int × Int) := [(-1, 0), (1, 0), (0, -1), (0, 1)]

/-- The `neighbors` list built for an open cell `(r, c)` by `create_maze_graph`
(File2 lines 120-124): for each offset, `(nr, nc)` is kept when
`0 <= nr < rows and 0 <= nc < cols and grid[nr][nc] == 0`. -/
def mazeNeighbors (grid : List (List Nat)) (r c : Nat) : List (Nat × Nat) :=
  deltas.filterMap (fun d =>
    let nr : Int := (r : Int) + d.1
    let nc : Int := (c : Int) + d.2
    if 0 ≤ nr ∧ nr < (rowsOf grid : Int) ∧ 0 ≤ nc ∧ nc < (colsOf grid : Int) ∧
        cellAt grid nr.toNat nc.toNat = 0 then
      some (nr.toNat, nc.toNat)
    else none)

/-- Function `create_maze_graph` (File2 lines 114-126): one dict entry
`(r, c) ↦ neighbors` per open cell, rows then columns in increasing order. -/
def create_maze_graph (grid : List (List Nat)) : List ((Nat × Nat) × List (Nat × Nat)) :=
  (List.range (rowsOf grid)).flatMap (fun r =>
    (List.range (colsOf grid)).filterMap (fun c =>
      if cellAt grid r c = 0 then some ((r, c), mazeNeighbors grid r c) else none))

/-- Assignment `self.graph = create_maze_graph(MAZE_GRID)` (File2 line 138). -/
def mazeGraph : List ((Nat × Nat) × List (Nat × Nat)) := create_maze_graph MAZE_GRID

/-- The keys of the fixed maze graph (its open cells), in dict order. -/
def mazeKeys : List (Nat × Nat) := mazeGraph.map Prod.fst

/-- The traversal order of a maze run: nodes carried by its `visit` steps. -/
def mOrder {α : Type} (steps : List (MStep α)) : List α :=
  steps.filterMap (fun s => if s.kind = .visit then s.node else none)

/-- The fixed fuel used for runs on the repository's concrete data; every
such run terminates well within it. -/
def FUEL : Nat := 100

/-- The BFS run of File1 on `GRAPH` from start node `A`. -/
def bfsRunA : RunResult (GStep String) := GraphVisualizer.get_bfs_gen GRAPH ("A") FUEL

/-- The DFS run of File1 on `GRAPH` from start node `A`. -/
def dfsRunA : RunResult (GStep String) := GraphVisualizer.get_dfs_gen GRAPH ("A") FUEL

/-- The maze BFS run of File2 from `START_POS` with goal `EXIT_POS`. -/
def mazeBfsRun : RunResult (MStep (Nat × Nat)) :=
  MazeVisualizer.get_bfs_gen mazeGraph EXIT_POS START_POS FUEL

/-- The maze DFS run of File2 from `START_POS` with goal `EXIT_POS`. -/
def mazeDfsRun : RunResult (MStep (Nat × Nat)) :=
  MazeVisualizer.get_dfs_gen mazeGraph EXIT_POS START_POS FUEL

/-- Boolean subset test on lists viewed as sets. -/
def subsetb {α : Type} [DecidableEq α] (l₁ l₂ : List α) : Bool :=
  l₁.all (fun a => decide (a ∈ l₂))

/-- Boolean check that consecutive entries of a list of visited-set snapshots
only grow (each is a subset of the next). -/
def visitedChain {α : Type} [DecidableEq α] : List (List α) → Bool
  | [] => true
  | [_] => true
  | v₁ :: v₂ :: rest => subsetb v₁ v₂ && visitedChain (v₂ :: rest)

/-- Boolean duplicate-freedom test. -/
def nodupb {α : Type} [DecidableEq α] (l : List α) : Bool := decide l.Nodup

/-- The nodes carried by the `queue` (discovery) steps of a File1 BFS run, in
order: one per `queue.append`. -/
def queuedNodes {α : Type} (steps : List (GStep α)) : List α :=
  steps.filterMap (fun s => if s.kind = .queued then s.node else none)

/-- The nodes carried by the `discover` steps of a maze run, in order: one per
frontier append. -/
def discoveredNodes {α : Type} (steps : List (MStep α)) : List α :=
  steps.filterMap (fun s => if s.kind = .discover then s.node else none)

/-- Boolean check that consecutive elements of a cell list are graph-adjacent
(each next cell is in the neighbor list of the previous one). -/
def chainAdjb {α : Type} [DecidableEq α] (g : List (α × List α)) : List α → Bool
  | [] => true
  | [_] => true
  | a :: b :: rest =>
    (match lookupG g a with
     | some l => decide (b ∈ l)
     | none => false) && chainAdjb g (b :: rest)

/-- What the fourth field of each maze step actually holds: `init` carries the
frontier entry list; `fail` carries `[]`; `visit` and `done` carry the path
from the start to the step's own node; `discover` carries the path from the
start to the node currently being expanded (a strict prefix of the discovered
node's path). -/
def mazePayloadOk {α : Type} [DecidableEq α] (g : List (α × List α)) (start : α)
    (s : MStep α) : Bool :=
  match s.kind, s.payload with
  | .init, .entries _ => true
  | .init, .cells _ => false
  | .fail, .cells l => l.isEmpty
  | .visit, .cells p =>
    decide (p.head? = some start) && chainAdjb g p && decide (p.getLast? = s.node)
  | .done, .cells p =>
    decide (p.head? = some start) && chainAdjb g p && decide (p.getLast? = s.node)
  | .discover, .cells p => decide (p.head? = some start) && chainAdjb g p
  | _, _ => false

/-- A cell `v` appears in the neighbor list that `create_maze_graph` associates
to the key `u`. -/
def inNeighborList (grid : List (List Nat)) (u v : Nat × Nat) : Prop :=
  ∃ l, (u, l) ∈ create_maze_graph grid ∧ v ∈ l

/-- Orthogonal adjacency of grid cells (the four offsets of File2 line 121,
expressed without subtraction). -/
def adjacentCells (u v : Nat × Nat) : Prop :=
  (v.1 = u.1 + 1 ∧ v.2 = u.2) ∨ (u.1 = v.1 + 1 ∧ v.2 = u.2) ∨
  (v.2 = u.2 + 1 ∧ v.1 = u.1) ∨ (u.2 = v.2 + 1 ∧ v.1 = u.1)

/-- The key `k` is present in the dict embedding `g`. -/
def isKey {α β : Type} [DecidableEq α] (g : List (α × β)) (k : α) : Prop :=
  (lookupG g k).isSome = true

/-- Every node mentioned in an adjacency list of `g` is itself a key of `g`. -/
def closedGraph {α : Type} [DecidableEq α] (g : List (α × List α)) : Prop :=
  ∀ p ∈ g, ∀ n ∈ p.2, isKey g n

/-!
Helper lemmas: characterization of `create_maze_graph`, termination shape of
the maze loops, and key-safety invariants of the four traversal loops.
-/

/-- Membership in the neighbor list built for cell `(r, c)`: exactly the
in-bounds open cells orthogonally adjacent to `(r, c)`. -/
theorem mem_mazeNeighbors (grid : List (List Nat)) (r c : Nat) (v : Nat × Nat) :
    v ∈ mazeNeighbors grid r c ↔
      v.1 < rowsOf grid ∧ v.2 < colsOf grid ∧ cellAt grid v.1 v.2 = 0 ∧
        adjacentCells (r, c) v := by
  obtain ⟨a, b⟩ := v
  simp only [mazeNeighbors, deltas, List.mem_filterMap, List.mem_cons,
    List.not_mem_nil, or_false, Option.ite_none_right_eq_some, Option.some_inj,
    adjacentCells]
  constructor
  · rintro ⟨d, (rfl | rfl | rfl | rfl), ⟨h1, h2, h3, h4, h5⟩, heq⟩ <;>
    · obtain ⟨ha, hb⟩ := Prod.mk.injEq .. ▸ heq
      subst ha
      subst hb
      refine ⟨by omega, by omega, h5, ?_⟩
      simp only []
      omega
  · rintro ⟨h1, h2, h3, h4⟩
    rcases h4 with ⟨ha, hb⟩ | ⟨ha, hb⟩ | ⟨ha, hb⟩ | ⟨ha, hb⟩
    · refine ⟨(1, 0), by simp, ⟨by omega, by omega, by omega, by omega, ?_⟩, ?_⟩
      · have e1 : ((r : Int) + 1).toNat = a := by omega
        have e2 : ((c : Int) + 0).toNat = b := by omega
        rw [e1, e2]; exact h3
      · have e1 : ((r : Int) + 1).toNat = a := by omega
        have e2 : ((c : Int) + 0).toNat = b := by omega
        rw [e1, e2]
    · refine ⟨(-1, 0), by simp, ⟨by omega, by omega, by omega, by omega, ?_⟩, ?_⟩
      · have e1 : ((r : Int) + -1).toNat = a := by omega
        have e2 : ((c : Int) + 0).toNat = b := by omega
        rw [e1, e2]; exact h3
      · have e1 : ((r : Int) + -1).toNat = a := by omega
        have e2 : ((c : Int) + 0).toNat = b := by omega
        rw [e1, e2]
    · refine ⟨(0, 1), by simp, ⟨by omega, by omega, by omega, by omega, ?_⟩, ?_⟩
      · have e1 : ((r : Int) + 0).toNat = a := by omega
        have e2 : ((c : Int) + 1).toNat = b := by omega
        rw [e1, e2]; exact h3
      · have e1 : ((r : Int) + 0).toNat = a := by omega
        have e2 : ((c : Int) + 1).toNat = b := by omega
        rw [e1, e2]
    · refine ⟨(0, -1), by simp, ⟨by omega, by omega, by omega, by omega, ?_⟩, ?_⟩
      · have e1 : ((r : Int) + 0).toNat = a := by omega
        have e2 : ((c : Int) + -1).toNat = b := by omega
        rw [e1, e2]; exact h3
      · have e1 : ((r : Int) + 0).toNat = a := by omega
        have e2 : ((c : Int) + -1).toNat = b := by omega
        rw [e1, e2]

/-- Membership in `create_maze_graph grid`: the keys are exactly the in-bounds
open cells, each bound to its `mazeNeighbors` list. -/
theorem mem_create_maze_graph (grid : List (List Nat)) (u : Nat × Nat)
    (l : List (Nat × Nat)) :
    (u, l) ∈ create_maze_graph grid ↔
      u.1 < rowsOf grid ∧ u.2 < colsOf grid ∧ cellAt grid u.1 u.2 = 0 ∧
        l = mazeNeighbors grid u.1 u.2 := by
  obtain ⟨r, c⟩ := u
  simp only [create_maze_graph, List.mem_flatMap, List.mem_filterMap,
    List.mem_range, Option.ite_none_right_eq_some, Option.some_inj]
  constructor
  · rintro ⟨r₁, hr₁, c₁, hc₁, hcell, heq⟩
    obtain ⟨hu, hl⟩ := Prod.mk.injEq .. ▸ heq
    obtain ⟨ha, hb⟩ := Prod.mk.injEq .. ▸ hu
    subst ha; subst hb
    exact ⟨hr₁, hc₁, hcell, hl.symm⟩
  · rintro ⟨h1, h2, h3, rfl⟩
    exact ⟨r, h1, c, h2, h3, rfl⟩

/-- Unfolding of `inNeighborList`: both endpoints are in-bounds open cells and
the two cells are orthogonally adjacent. -/
theorem inNeighborList_char (grid : List (List Nat)) (u v : Nat × Nat) :
    inNeighborList grid u v ↔
      (u.1 < rowsOf grid ∧ u.2 < colsOf grid ∧ cellAt grid u.1 u.2 = 0) ∧
      (v.1 < rowsOf grid ∧ v.2 < colsOf grid ∧ cellAt grid v.1 v.2 = 0) ∧
      adjacentCells u v := by
  constructor
  · rintro ⟨l, hmem, hv⟩
    rw [mem_create_maze_graph] at hmem
    obtain ⟨h1, h2, h3, rfl⟩ := hmem
    rw [mem_mazeNeighbors] at hv
    exact ⟨⟨h1, h2, h3⟩, ⟨hv.1, hv.2.1, hv.2.2.1⟩, hv.2.2.2⟩
  · rintro ⟨⟨h1, h2, h3⟩, ⟨h4, h5, h6⟩, h7⟩
    refine ⟨mazeNeighbors grid u.1 u.2, ?_, ?_⟩
    · rw [mem_create_maze_graph]
      exact ⟨h1, h2, h3, rfl⟩
    · rw [mem_mazeNeighbors]
      exact ⟨h4, h5, h6, h7⟩

/-- Orthogonal adjacency of cells is symmetric. -/
theorem adjacentCells_symm (u v : Nat × Nat) : adjacentCells u v ↔ adjacentCells v u := by
  unfold adjacentCells
  omega

/-- When the maze BFS loop terminates normally and none of its `visit` steps
carries the goal, its final step is the `fail` step. -/
theorem mazeBfsLoop_fail {α : Type} [DecidableEq α] (g : List (α × List α)) (goal : α) :
    ∀ (fuel : Nat) (queue : List (α × List α)) (visited : List α)
      (steps : List (MStep α)),
      MazeVisualizer.mazeBfsLoop g goal fuel queue visited = .ok steps →
      (∀ s ∈ steps, s.kind = .visit → s.node ≠ some goal) →
      (steps.getLast?).map (fun s => (s.kind, s.node, s.payload)) =
        some (StepKind.fail, none, MPayload.cells []) := by
  intro fuel
  induction fuel with
  | zero =>
    intro queue visited steps h hnd
    simp [MazeVisualizer.mazeBfsLoop] at h
  | succ n ih =>
    intro queue visited steps h hnd
    match queue with
    | [] =>
      simp [MazeVisualizer.mazeBfsLoop] at h
      subst h
      rfl
    | (node, path) :: rest =>
      by_cases hg : node = goal
      · simp [MazeVisualizer.mazeBfsLoop, hg] at h
        subst h
        exact absurd rfl
          (hnd ⟨StepKind.visit, some goal, visited, MPayload.cells path⟩ (by simp) rfl)
      · rcases hl : lookupG g node with _ | nbs
        · simp [MazeVisualizer.mazeBfsLoop, hg, hl] at h
        · rcases hexp : MazeVisualizer.mazeBfsExpand nbs visited rest path with ⟨v₁, q₁, dsteps⟩
          rcases hrec : MazeVisualizer.mazeBfsLoop g goal n q₁ v₁ with steps₁ | _ | _
          · simp [MazeVisualizer.mazeBfsLoop, hg, hl, hexp, hrec] at h
            subst h
            have hlast := ih q₁ v₁ steps₁ hrec
              (fun s hs hv => hnd s (by simp [List.mem_cons, List.mem_append, hs]) hv)
            have hne : steps₁ ≠ [] := by
              intro he
              rw [he] at hlast
              simp at hlast
            rw [show (⟨StepKind.visit, some node, visited, MPayload.cells path⟩ :: (dsteps ++ steps₁) :
                List (MStep α)) = (⟨StepKind.visit, some node, visited, MPayload.cells path⟩ :: dsteps) ++ steps₁
                from by simp]
            rw [List.getLast?_append_of_ne_nil _ hne]
            exact hlast
          · simp [MazeVisualizer.mazeBfsLoop, hg, hl, hexp, hrec] at h
          · simp [MazeVisualizer.mazeBfsLoop, hg, hl, hexp, hrec] at h

/-- When the maze DFS loop terminates normally and none of its `visit` steps
carries the goal, its final step is the `fail` step. -/
theorem mazeDfsLoop_fail {α : Type} [DecidableEq α] (g : List (α × List α)) (goal : α) :
    ∀ (fuel : Nat) (stackRev : List (α × List α)) (visited : List α)
      (steps : List (MStep α)),
      MazeVisualizer.mazeDfsLoop g goal fuel stackRev visited = .ok steps →
      (∀ s ∈ steps, s.kind = .visit → s.node ≠ some goal) →
      (steps.getLast?).map (fun s => (s.kind, s.node, s.payload)) =
        some (StepKind.fail, none, MPayload.cells []) := by
  intro fuel
  induction fuel with
  | zero =>
    intro stackRev visited steps h hnd
    simp [MazeVisualizer.mazeDfsLoop] at h
  | succ n ih =>
    intro stackRev visited steps h hnd
    match stackRev with
    | [] =>
      simp [MazeVisualizer.mazeDfsLoop] at h
      subst h
      rfl
    | (node, path) :: rest =>
      by_cases hv : node ∈ visited
      · simp [MazeVisualizer.mazeDfsLoop, hv] at h
        exact ih rest visited steps h hnd
      · by_cases hg : node = goal
        · subst hg
          simp [MazeVisualizer.mazeDfsLoop, hv] at h
          subst h
          exact absurd rfl
            (hnd ⟨StepKind.visit, some node, visited ++ [node], MPayload.cells path⟩
              (by simp) rfl)
        · rcases hl : lookupG g node with _ | nbs
          · simp [MazeVisualizer.mazeDfsLoop, hv, hg, hl] at h
          · rcases hexp : MazeVisualizer.mazeDfsExpand nbs.reverse (visited ++ [node]) rest path with
              ⟨s₁, dsteps⟩
            rcases hrec : MazeVisualizer.mazeDfsLoop g goal n s₁ (visited ++ [node]) with
              steps₁ | _ | _
            · simp [MazeVisualizer.mazeDfsLoop, hv, hg, hl, hexp, hrec] at h
              subst h
              have hlast := ih s₁ (visited ++ [node]) steps₁ hrec
                (fun s hs hvk => hnd s (by simp [List.mem_cons, List.mem_append, hs]) hvk)
              have hne : steps₁ ≠ [] := by
                intro he
                rw [he] at hlast
                simp at hlast
              rw [show (⟨StepKind.visit, some node, visited ++ [node], MPayload.cells path⟩ ::
                  (dsteps ++ steps₁) : List (MStep α)) =
                  (⟨StepKind.visit, some node, visited ++ [node], MPayload.cells path⟩ ::
                  dsteps) ++ steps₁ from by simp]
              rw [List.getLast?_append_of_ne_nil _ hne]
              exact hlast
            · simp [MazeVisualizer.mazeDfsLoop, hv, hg, hl, hexp, hrec] at h
            · simp [MazeVisualizer.mazeDfsLoop, hv, hg, hl, hexp, hrec] at h

/-- A successful `lookupG` result is an entry of the association list. -/
theorem mem_of_lookupG {α β : Type} [DecidableEq α] (g : List (α × β)) (k : α) (v : β)
    (h : lookupG g k = some v) : (k, v) ∈ g := by
  induction g with
  | nil => simp [lookupG] at h
  | cons p rest ih =>
    obtain ⟨k₁, v₁⟩ := p
    by_cases hk : k = k₁
    · subst hk
      simp [lookupG] at h
      subst h
      exact List.mem_cons_self _ _
    · simp [lookupG, hk] at h
      exact List.mem_cons_of_mem _ (ih h)

/-- In a closed graph, every neighbor obtained from a successful lookup is
itself a key. -/
theorem closed_neighbors_keys {α : Type} [DecidableEq α] {g : List (α × List α)}
    (hg : closedGraph g) {node : α} {nbs : List α} (h : lookupG g node = some nbs) :
    ∀ n ∈ nbs, isKey g n :=
  fun n hn => hg (node, nbs) (mem_of_lookupG g node nbs h) n hn

/-- Every element of the queue produced by the BFS expansion step was already
in the queue or is one of the expanded node's neighbors. -/
theorem bfsExpand_queue_mem {α : Type} [DecidableEq α] :
    ∀ (nbs visited queue v₁ q₁ : List α) (st : List (GStep α)),
      GraphVisualizer.bfsExpand nbs visited queue = (v₁, q₁, st) →
      ∀ x ∈ q₁, x ∈ queue ∨ x ∈ nbs := by
  intro nbs
  induction nbs with
  | nil =>
    intro visited queue v₁ q₁ st h x hx
    simp [GraphVisualizer.bfsExpand] at h
    obtain ⟨-, rfl, -⟩ := h
    exact Or.inl hx
  | cons nb rest ih =>
    intro visited queue v₁ q₁ st h x hx
    by_cases hv : nb ∈ visited
    · simp [GraphVisualizer.bfsExpand, hv] at h
      rcases ih visited queue v₁ q₁ st h x hx with h₁ | h₁
      · exact Or.inl h₁
      · exact Or.inr (List.mem_cons_of_mem _ h₁)
    · rcases hrec : GraphVisualizer.bfsExpand rest (visited ++ [nb]) (queue ++ [nb]) with
        ⟨v₂, q₂, st₂⟩
      simp [GraphVisualizer.bfsExpand, hv, hrec] at h
      obtain ⟨-, rfl, -⟩ := h
      rcases ih _ _ v₂ q₂ st₂ hrec x hx with h₁ | h₁
      · rcases List.mem_append.mp h₁ with h₂ | h₂
        · exact Or.inl h₂
        · simp at h₂
          subst h₂
          exact Or.inr (List.mem_cons_self _ _)
      · exact Or.inr (List.mem_cons_of_mem _ h₁)

/-- Every element of the stack produced by the DFS expansion step was already
on the stack or is one of the expanded node's neighbors. -/
theorem dfsExpand_stack_mem {α : Type} [DecidableEq α] :
    ∀ (nbs visited stackRev s₁ : List α) (st : List (GStep α)),
      GraphVisualizer.dfsExpand nbs visited stackRev = (s₁, st) →
      ∀ x ∈ s₁, x ∈ stackRev ∨ x ∈ nbs := by
  intro nbs
  induction nbs with
  | nil =>
    intro visited stackRev s₁ st h x hx
    simp [GraphVisualizer.dfsExpand] at h
    obtain ⟨rfl, -⟩ := h
    exact Or.inl hx
  | cons nb rest ih =>
    intro visited stackRev s₁ st h x hx
    by_cases hv : nb ∈ visited
    · simp [GraphVisualizer.dfsExpand, hv] at h
      rcases ih visited stackRev s₁ st h x hx with h₁ | h₁
      · exact Or.inl h₁
      · exact Or.inr (List.mem_cons_of_mem _ h₁)
    · rcases hrec : GraphVisualizer.dfsExpand rest visited (nb :: stackRev) with ⟨s₂, st₂⟩
      simp [GraphVisualizer.dfsExpand, hv, hrec] at h
      obtain ⟨rfl, -⟩ := h
      rcases ih _ _ s₂ st₂ hrec x hx with h₁ | h₁
      · rcases List.mem_cons.mp h₁ with h₂ | h₂
        · subst h₂
          exact Or.inr (List.mem_cons_self _ _)
        · exact Or.inl h₂
      · exact Or.inr (List.mem_cons_of_mem _ h₁)

/-- Every entry of the queue produced by the maze BFS expansion step was
already in the queue or carries one of the expanded node's neighbors. -/
theorem mazeBfsExpand_queue_mem {α : Type} [DecidableEq α] :
    ∀ (nbs visited : List α) (queue : List (α × List α)) (path v₁ : List α)
      (q₁ : List (α × List α)) (st : List (MStep α)),
      MazeVisualizer.mazeBfsExpand nbs visited queue path = (v₁, q₁, st) →
      ∀ e ∈ q₁, e ∈ queue ∨ e.1 ∈ nbs := by
  intro nbs
  induction nbs with
  | nil =>
    intro visited queue path v₁ q₁ st h e he
    simp [MazeVisualizer.mazeBfsExpand] at h
    obtain ⟨-, rfl, -⟩ := h
    exact Or.inl he
  | cons nb rest ih =>
    intro visited queue path v₁ q₁ st h e he
    by_cases hv : nb ∈ visited
    · simp [MazeVisualizer.mazeBfsExpand, hv] at h
      rcases ih visited queue path v₁ q₁ st h e he with h₁ | h₁
      · exact Or.inl h₁
      · exact Or.inr (List.mem_cons_of_mem _ h₁)
    · rcases hrec : MazeVisualizer.mazeBfsExpand rest (visited ++ [nb])
        (queue ++ [(nb, path ++ [nb])]) path with ⟨v₂, q₂, st₂⟩
      simp [MazeVisualizer.mazeBfsExpand, hv, hrec] at h
      obtain ⟨-, rfl, -⟩ := h
      rcases ih _ _ _ v₂ q₂ st₂ hrec e he with h₁ | h₁
      · rcases List.mem_append.mp h₁ with h₂ | h₂
        · exact Or.inl h₂
        · simp at h₂
          subst h₂
          exact Or.inr (List.mem_cons_self _ _)
      · exact Or.inr (List.mem_cons_of_mem _ h₁)

/-- Every entry of the stack produced by the maze DFS expansion step was
already on the stack or carries one of the expanded node's neighbors. -/
theorem mazeDfsExpand_stack_mem {α : Type} [DecidableEq α] :
    ∀ (nbs visited : List α) (stackRev : List (α × List α)) (path : List α)
      (s₁ : List (α × List α)) (st : List (MStep α)),
      MazeVisualizer.mazeDfsExpand nbs visited stackRev path = (s₁, st) →
      ∀ e ∈ s₁, e ∈ stackRev ∨ e.1 ∈ nbs := by
  intro nbs
  induction nbs with
  | nil =>
    intro visited stackRev path s₁ st h e he
    simp [MazeVisualizer.mazeDfsExpand] at h
    obtain ⟨rfl, -⟩ := h
    exact Or.inl he
  | cons nb rest ih =>
    intro visited stackRev path s₁ st h e he
    by_cases hv : nb ∈ visited
    · simp [MazeVisualizer.mazeDfsExpand, hv] at h
      rcases ih visited stackRev path s₁ st h e he with h₁ | h₁
      · exact Or.inl h₁
      · exact Or.inr (List.mem_cons_of_mem _ h₁)
    · rcases hrec : MazeVisualizer.mazeDfsExpand rest visited
        ((nb, path ++ [nb]) :: stackRev) path with ⟨s₂, st₂⟩
      simp [MazeVisualizer.mazeDfsExpand, hv, hrec] at h
      obtain ⟨rfl, -⟩ := h
      rcases ih _ _ _ s₂ st₂ hrec e he with h₁ | h₁
      · rcases List.mem_cons.mp h₁ with h₂ | h₂
        · subst h₂
          exact Or.inr (List.mem_cons_self _ _)
        · exact Or.inl h₂
      · exact Or.inr (List.mem_cons_of_mem _ h₁)

/-- On a closed graph, the BFS loop of File1 never raises a `KeyError` when
every queued node is a key. -/
theorem bfsLoop_no_keyError {α : Type} [DecidableEq α] (g : List (α × List α))
    (hg : closedGraph g) :
    ∀ (fuel : Nat) (queue visited : List α), (∀ x ∈ queue, isKey g x) →
      GraphVisualizer.bfsLoop g fuel queue visited ≠ .keyError := by
  intro fuel
  induction fuel with
  | zero =>
    intro queue visited hq
    simp [GraphVisualizer.bfsLoop]
  | succ n ih =>
    intro queue visited hq
    match queue with
    | [] => simp [GraphVisualizer.bfsLoop]
    | node :: rest =>
      have hkey := hq node (List.mem_cons_self _ _)
      rcases hl : lookupG g node with _ | nbs
      · rw [isKey, hl] at hkey
        simp at hkey
      · rcases hexp : GraphVisualizer.bfsExpand nbs visited rest with ⟨v₁, q₁, st⟩
        have hq₁ : ∀ x ∈ q₁, isKey g x := by
          intro x hx
          rcases bfsExpand_queue_mem nbs visited rest v₁ q₁ st hexp x hx with h₁ | h₁
          · exact hq x (List.mem_cons_of_mem _ h₁)
          · exact closed_neighbors_keys hg hl x h₁
        rcases hrec : GraphVisualizer.bfsLoop g n q₁ v₁ with steps₁ | _ | _
        · simp [GraphVisualizer.bfsLoop, hl, hexp, hrec]
        · exact absurd hrec (ih q₁ v₁ hq₁)
        · simp [GraphVisualizer.bfsLoop, hl, hexp, hrec]

/-- On a closed graph, the DFS loop of File1 never raises a `KeyError` when
every stacked node is a key. -/
theorem dfsLoop_no_keyError {α : Type} [DecidableEq α] (g : List (α × List α))
    (hg : closedGraph g) :
    ∀ (fuel : Nat) (stackRev visited : List α), (∀ x ∈ stackRev, isKey g x) →
      GraphVisualizer.dfsLoop g fuel stackRev visited ≠ .keyError := by
  intro fuel
  induction fuel with
  | zero =>
    intro stackRev visited hq
    simp [GraphVisualizer.dfsLoop]
  | succ n ih =>
    intro stackRev visited hq
    match stackRev with
    | [] => simp [GraphVisualizer.dfsLoop]
    | node :: rest =>
      have hkey := hq node (List.mem_cons_self _ _)
      by_cases hv : node ∈ visited
      · simp only [GraphVisualizer.dfsLoop, if_pos hv]
        exact ih rest visited (fun x hx => hq x (List.mem_cons_of_mem _ hx))
      · rcases hl : lookupG g node with _ | nbs
        · rw [isKey, hl] at hkey
          simp at hkey
        · rcases hexp : GraphVisualizer.dfsExpand nbs.reverse (visited ++ [node]) rest with
            ⟨s₁, st⟩
          have hs₁ : ∀ x ∈ s₁, isKey g x := by
            intro x hx
            rcases dfsExpand_stack_mem nbs.reverse (visited ++ [node]) rest s₁ st hexp x hx with
              h₁ | h₁
            · exact hq x (List.mem_cons_of_mem _ h₁)
            · exact closed_neighbors_keys hg hl x (List.mem_reverse.mp h₁)
          rcases hrec : GraphVisualizer.dfsLoop g n s₁ (visited ++ [node]) with steps₁ | _ | _
          · simp [GraphVisualizer.dfsLoop, hv, hl, hexp, hrec]
          · exact absurd hrec (ih s₁ (visited ++ [node]) hs₁)
          · simp [GraphVisualizer.dfsLoop, hv, hl, hexp, hrec]

/-- On a closed graph, the maze BFS loop never raises a `KeyError` when every
queued entry carries a key. -/
theorem mazeBfsLoop_no_keyError {α : Type} [DecidableEq α] (g : List (α × List α))
    (goal : α) (hg : closedGraph g) :
    ∀ (fuel : Nat) (queue : List (α × List α)) (visited : List α),
      (∀ e ∈ queue, isKey g e.1) →
      MazeVisualizer.mazeBfsLoop g goal fuel queue visited ≠ .keyError := by
  intro fuel
  induction fuel with
  | zero =>
    intro queue visited hq
    simp [MazeVisualizer.mazeBfsLoop]
  | succ n ih =>
    intro queue visited hq
    match queue with
    | [] => simp [MazeVisualizer.mazeBfsLoop]
    | (node, path) :: rest =>
      have hkey := hq (node, path) (List.mem_cons_self _ _)
      by_cases hgoal : node = goal
      · simp [MazeVisualizer.mazeBfsLoop, hgoal]
      · rcases hl : lookupG g node with _ | nbs
        · rw [isKey, hl] at hkey
          simp at hkey
        · rcases hexp : MazeVisualizer.mazeBfsExpand nbs visited rest path with ⟨v₁, q₁, st⟩
          have hq₁ : ∀ e ∈ q₁, isKey g e.1 := by
            intro e he
            rcases mazeBfsExpand_queue_mem nbs visited rest path v₁ q₁ st hexp e he with
              h₁ | h₁
            · exact hq e (List.mem_cons_of_mem _ h₁)
            · exact closed_neighbors_keys hg hl e.1 h₁
          rcases hrec : MazeVisualizer.mazeBfsLoop g goal n q₁ v₁ with steps₁ | _ | _
          · simp [MazeVisualizer.mazeBfsLoop, hgoal, hl, hexp, hrec]
          · exact absurd hrec (ih q₁ v₁ hq₁)
          · simp [MazeVisualizer.mazeBfsLoop, hgoal, hl, hexp, hrec]

/-- On a closed graph, the maze DFS loop never raises a `KeyError` when every
stacked entry carries a key. -/
theorem mazeDfsLoop_no_keyError {α : Type} [DecidableEq α] (g : List (α × List α))
    (goal : α) (hg : closedGraph g) :
    ∀ (fuel : Nat) (stackRev : List (α × List α)) (visited : List α),
      (∀ e ∈ stackRev, isKey g e.1) →
      MazeVisualizer.mazeDfsLoop g goal fuel stackRev visited ≠ .keyError := by
  intro fuel
  induction fuel with
  | zero =>
    intro stackRev visited hq
    simp [MazeVisualizer.mazeDfsLoop]
  | succ n ih =>
    intro stackRev visited hq
    match stackRev with
    | [] => simp [MazeVisualizer.mazeDfsLoop]
    | (node, path) :: rest =>
      have hkey := hq (node, path) (List.mem_cons_self _ _)
      by_cases hv : node ∈ visited
      · simp only [MazeVisualizer.mazeDfsLoop, if_pos hv]
        exact ih rest visited (fun e he => hq e (List.mem_cons_of_mem _ he))
      · by_cases hgoal : node = goal
        · subst hgoal
          simp [MazeVisualizer.mazeDfsLoop, hv]
        · rcases hl : lookupG g node with _ | nbs
          · rw [isKey, hl] at hkey
            simp at hkey
          · rcases hexp : MazeVisualizer.mazeDfsExpand nbs.reverse (visited ++ [node]) rest
              path with ⟨s₁, st⟩
            have hs₁ : ∀ e ∈ s₁, isKey g e.1 := by
              intro e he
              rcases mazeDfsExpand_stack_mem nbs.reverse (visited ++ [node]) rest path s₁ st
                hexp e he with h₁ | h₁
              · exact hq e (List.mem_cons_of_mem _ h₁)
              · exact closed_neighbors_keys hg hl e.1 (List.mem_reverse.mp h₁)
            rcases hrec : MazeVisualizer.mazeDfsLoop g goal n s₁ (visited ++ [node]) with
              steps₁ | _ | _
            · simp [MazeVisualizer.mazeDfsLoop, hv, hgoal, hl, hexp, hrec]
            · exact absurd hrec (ih s₁ (visited ++ [node]) hs₁)
            · simp [MazeVisualizer.mazeDfsLoop, hv, hgoal, hl, hexp, hrec]

/-!
Claim theorems.
-/

/-- C1: for the 6-node sample graph `GRAPH`, the BFS generator started at node
`A` completes and the traversal order (the nodes carried by its `visit`
steps) is exactly `[A, B, C, D, E, F]`. -/
theorem bfs_order_sample_graph :
    bfsRunA.isOk = true ∧
    gOrder bfsRunA.toSteps = [("A"), ("B"), ("C"), ("D"), ("E"), ("F")] := by
  decide

/-- C2: for the 6-node sample graph `GRAPH`, the DFS generator started at node
`A` completes and the traversal order is exactly `[A, B, D, E, F, C]` — the
first untried neighbor is always preferred, and a sibling is taken only when
a branch is exhausted. -/
theorem dfs_order_sample_graph :
    dfsRunA.isOk = true ∧
    gOrder dfsRunA.toSteps = [("A"), ("B"), ("D"), ("E"), ("F"), ("C")] := by
  decide

/-- C3: on the fixed 3x3 maze with a wall at `(1,1)`, the maze BFS generator
started at `(0,0)` with goal `(2,2)` terminates, and its final step is a
`done` step whose path is exactly the 5-cell sequence
`[(0,0), (1,0), (2,0), (2,1), (2,2)]`. -/
theorem maze_bfs_done_shortest_path :
    mazeBfsRun.isOk = true ∧
    (mazeBfsRun.toSteps.getLast?).map (fun s => (s.kind, s.node, s.payload)) =
      some (StepKind.done, some (2, 2),
        MPayload.cells [(0, 0), (1, 0), (2, 0), (2, 1), (2, 2)]) ∧
    [(0, 0), (1, 0), (2, 0), (2, 1), (2, 2)].length = 5 := by
  decide

/-- C4: for every traversal run of the repository (BFS and DFS, plain-graph
and maze variant, from every key of the respective fixed graph) the run
completes and the visited set carried by each emitted step is a superset of
(or equal to) the one carried by the previous step — membership only grows
within one run. -/
theorem visited_monotone_all_runs :
    (graphKeys.all fun s =>
      let rb := GraphVisualizer.get_bfs_gen GRAPH s FUEL
      let rd := GraphVisualizer.get_dfs_gen GRAPH s FUEL
      rb.isOk && rd.isOk &&
      visitedChain (rb.toSteps.map GStep.visited) &&
      visitedChain (rd.toSteps.map GStep.visited)) = true ∧
    (mazeKeys.all fun c =>
      let rb := MazeVisualizer.get_bfs_gen mazeGraph EXIT_POS c FUEL
      let rd := MazeVisualizer.get_dfs_gen mazeGraph EXIT_POS c FUEL
      rb.isOk && rd.isOk &&
      visitedChain (rb.toSteps.map MStep.visited) &&
      visitedChain (rd.toSteps.map MStep.visited)) = true := by
  decide

/-- C5 counterexample: the maze DFS generator (File2 lines 188-209) yields no
`init` step at all — its first emitted step is the `visit` of the start cell,
refuting the claim that every traversal generator's first step has kind
`init`. -/
theorem first_step_init_counterexample :
    (mazeDfsRun.toSteps.head?).map MStep.kind = some StepKind.visit ∧
    (mazeDfsRun.toSteps.head?).map MStep.kind ≠ some StepKind.init := by
  decide

/-- C5 amended: for every start key, the plain-graph BFS generator's first
step is `init` with visited `{start}` and frontier `[start]`; the plain-graph
DFS generator's first step is `init` with empty visited and frontier
`[start]`; the maze BFS generator's first step is `init` carrying the start
cell, visited `{start}` and the single frontier entry `(start, [start])`;
the maze DFS generator emits no `init` step — its first step is the `visit`
of the start cell. -/
theorem first_step_amended :
    (graphKeys.all fun s =>
      decide ((GraphVisualizer.get_bfs_gen GRAPH s FUEL).toSteps.head? =
        some ⟨.init, none, [s], [s]⟩) &&
      decide ((GraphVisualizer.get_dfs_gen GRAPH s FUEL).toSteps.head? =
        some ⟨.init, none, [], [s]⟩)) = true ∧
    (mazeKeys.all fun c =>
      decide ((MazeVisualizer.get_bfs_gen mazeGraph EXIT_POS c FUEL).toSteps.head? =
        some ⟨.init, some c, [c], .entries [(c, [c])]⟩) &&
      decide ((MazeVisualizer.get_dfs_gen mazeGraph EXIT_POS c FUEL).toSteps.head? =
        some ⟨.visit, some c, [c], .cells [c]⟩)) = true := by
  decide

/-- C6 counterexample: the maze generators' steps do not carry the frontier
as fourth field.  In the maze BFS run from `(0,0)`, the `init` step shows the
entire frontier is the single entry `((0,0), [(0,0)])`; the next step is the
`visit` that removes that only entry, so the remaining frontier at that
moment is empty — yet the step's fourth field is `[(0,0)]` (the path to the
visited cell, containing the just-processed cell itself), not the empty
frontier. -/
theorem fourth_field_frontier_counterexample :
    mazeBfsRun.toSteps.head? =
      some ⟨.init, some (0, 0), [(0, 0)], .entries [((0, 0), [(0, 0)])]⟩ ∧
    mazeBfsRun.toSteps.get? 1 =
      some ⟨.visit, some (0, 0), [(0, 0)], .cells [(0, 0)]⟩ ∧
    MPayload.cells [((0, 0) : Nat × Nat)] ≠
      MPayload.cells (([((0, 0), [(0, 0)])] :
        List ((Nat × Nat) × List (Nat × Nat))).tail.map Prod.fst) := by
  decide

/-- C6 amended: in the maze generators the fourth field is the frontier entry
list only on the `init` step; every `visit` and `done` step instead carries
the path from the start to its own cell (consecutive cells adjacent in the
maze graph), every `discover` step carries the path to the cell being
expanded, and the `fail` step carries `[]`.  Verified for both maze
generators from every key of the fixed maze graph. -/
theorem maze_fourth_field_is_path :
    (mazeKeys.all fun c =>
      let rb := MazeVisualizer.get_bfs_gen mazeGraph EXIT_POS c FUEL
      let rd := MazeVisualizer.get_dfs_gen mazeGraph EXIT_POS c FUEL
      rb.isOk && rd.isOk &&
      rb.toSteps.all (mazePayloadOk mazeGraph c) &&
      rd.toSteps.all (mazePayloadOk mazeGraph c)) = true := by
  decide

/-- C7: in every BFS run of the repository (plain-graph variant from every
key of `GRAPH`, maze variant from every key of the fixed maze graph), the
start node together with the nodes of the `queue`/`discover` steps — one
step per frontier append — has no duplicates, so each node is enqueued at
most once; every enqueued node is already in the visited set carried by its
discovery step (marked visited when first enqueued); and each plain-graph
BFS step's frontier snapshot, as well as the maze `init` entry list, is
duplicate-free. -/
theorem bfs_enqueue_at_most_once :
    (graphKeys.all fun s =>
      let run := GraphVisualizer.get_bfs_gen GRAPH s FUEL
      run.isOk && nodupb (s :: queuedNodes run.toSteps) &&
      run.toSteps.all (fun st => nodupb st.frontier) &&
      run.toSteps.all (fun st =>
        match st.kind, st.node with
        | .queued, some n => decide (n ∈ st.visited)
        | _, _ => true)) = true ∧
    (mazeKeys.all fun c =>
      let run := MazeVisualizer.get_bfs_gen mazeGraph EXIT_POS c FUEL
      run.isOk && nodupb (c :: discoveredNodes run.toSteps) &&
      run.toSteps.all (fun st =>
        match st.kind, st.payload with
        | .init, .entries l => nodupb (l.map Prod.fst)
        | _, _ => true) &&
      run.toSteps.all (fun st =>
        match st.kind, st.node with
        | .discover, some n => decide (n ∈ st.visited)
        | _, _ => true)) = true := by
  decide

/-- C8: for every well-formed rectangular 0/1 grid, the adjacency structure
returned by `create_maze_graph` is symmetric — cell `v` appears in the
neighbor list of cell `u` exactly when `u` appears in the neighbor list of
`v` (both cells open, orthogonally adjacent, in bounds). -/
theorem maze_graph_symmetric (grid : List (List Nat))
    (_hne : grid ≠ [])
    (_hrect : ∀ row ∈ grid, row.length = colsOf grid)
    (_hvals : ∀ row ∈ grid, ∀ x ∈ row, x = 0 ∨ x = 1) :
    ∀ u v : Nat × Nat, inNeighborList grid u v ↔ inNeighborList grid v u := by
  intro u v
  rw [inNeighborList_char, inNeighborList_char, adjacentCells_symm]
  tauto

/-- Witness for C8: on the repository's own `MAZE_GRID`, cell `(1,0)` is a
neighbor of `(0,0)` exactly when `(0,0)` is a neighbor of `(1,0)`. -/
theorem maze_graph_symmetric_witness :
    MAZE_GRID ≠ [] ∧
    (inNeighborList MAZE_GRID (0, 0) (1, 0) ↔ inNeighborList MAZE_GRID (1, 0) (0, 0)) :=
  ⟨by decide,
   maze_graph_symmetric MAZE_GRID (by decide)
     (by intro row hrow; fin_cases hrow <;> rfl)
     (by intro row hrow; fin_cases hrow <;> decide) (0, 0) (1, 0)⟩

/-- C9: for every maze graph and start node, when a maze traversal generator
(BFS or DFS) terminates normally without ever removing the goal from the
frontier and visiting it (no `visit` step carries the goal), its final
emitted step has kind `fail`, carries no subject node, and carries the empty
path — the frontier was exhausted and no exception was raised. -/
theorem maze_fail_on_exhaustion {α : Type} [DecidableEq α] (g : List (α × List α))
    (goal start : α) (fuel : Nat) (sb sd : List (MStep α))
    (hb : MazeVisualizer.get_bfs_gen g goal start fuel = .ok sb)
    (hbn : ∀ s ∈ sb, s.kind = .visit → s.node ≠ some goal)
    (hd : MazeVisualizer.get_dfs_gen g goal start fuel = .ok sd)
    (hdn : ∀ s ∈ sd, s.kind = .visit → s.node ≠ some goal) :
    (sb.getLast?).map (fun s => (s.kind, s.node, s.payload)) =
      some (StepKind.fail, none, MPayload.cells []) ∧
    (sd.getLast?).map (fun s => (s.kind, s.node, s.payload)) =
      some (StepKind.fail, none, MPayload.cells []) := by
  constructor
  · rcases hloop : MazeVisualizer.mazeBfsLoop g goal fuel [(start, [start])] [start] with
      rest | _ | _
    · simp [MazeVisualizer.get_bfs_gen, hloop] at hb
      subst hb
      have hlast := mazeBfsLoop_fail g goal fuel [(start, [start])] [start] rest hloop
        (fun s hs hvk => hbn s (by simp [hs]) hvk)
      have hne : rest ≠ [] := by
        intro he
        rw [he] at hlast
        simp at hlast
      rw [show (⟨StepKind.init, some start, [start], MPayload.entries [(start, [start])]⟩ ::
          rest : List (MStep α)) =
          [⟨StepKind.init, some start, [start], MPayload.entries [(start, [start])]⟩] ++ rest
          from by simp]
      rw [List.getLast?_append_of_ne_nil _ hne]
      exact hlast
    · simp [MazeVisualizer.get_bfs_gen, hloop] at hb
    · simp [MazeVisualizer.get_bfs_gen, hloop] at hb
  · exact mazeDfsLoop_fail g goal fuel [(start, [start])] [] sd hd hdn

/-- Witness for C9: on the 2x2 grid `[[0,1],[1,0]]` the two open cells are
not adjacent, so from `(0,0)` toward goal `(1,1)` both maze generators
exhaust the frontier without visiting the goal and end in the `fail` step. -/
theorem maze_fail_on_exhaustion_witness :
    (([⟨StepKind.init, some (0, 0), [(0, 0)], MPayload.entries [((0, 0), [(0, 0)])]⟩,
       ⟨StepKind.visit, some (0, 0), [(0, 0)], MPayload.cells [(0, 0)]⟩,
       ⟨StepKind.fail, none, [(0, 0)], MPayload.cells []⟩] :
        List (MStep (Nat × Nat))).getLast?).map (fun s => (s.kind, s.node, s.payload)) =
      some (StepKind.fail, none, MPayload.cells []) ∧
    (([⟨StepKind.visit, some (0, 0), [(0, 0)], MPayload.cells [(0, 0)]⟩,
       ⟨StepKind.fail, none, [(0, 0)], MPayload.cells []⟩] :
        List (MStep (Nat × Nat))).getLast?).map (fun s => (s.kind, s.node, s.payload)) =
      some (StepKind.fail, none, MPayload.cells []) :=
  maze_fail_on_exhaustion (create_maze_graph [[0, 1], [1, 0]]) (1, 1) (0, 0) 10
    [⟨StepKind.init, some (0, 0), [(0, 0)], MPayload.entries [((0, 0), [(0, 0)])]⟩,
     ⟨StepKind.visit, some (0, 0), [(0, 0)], MPayload.cells [(0, 0)]⟩,
     ⟨StepKind.fail, none, [(0, 0)], MPayload.cells []⟩]
    [⟨StepKind.visit, some (0, 0), [(0, 0)], MPayload.cells [(0, 0)]⟩,
     ⟨StepKind.fail, none, [(0, 0)], MPayload.cells []⟩]
    (by decide) (by decide) (by decide) (by decide)

/-- C10: for every graph mapping whose adjacency lists mention only nodes
that are themselves keys, and every start node that is a key, none of the
four traversal generators ever performs a lookup at a missing key: only the
start node and previously listed neighbors are ever dequeued/popped and
expanded, so no run returns `keyError`, for any fuel. -/
theorem traversal_lookups_safe {α : Type} [DecidableEq α] (g : List (α × List α))
    (goal start : α) (fuel : Nat) (hg : closedGraph g) (hs : isKey g start) :
    GraphVisualizer.get_bfs_gen g start fuel ≠ .keyError ∧
    GraphVisualizer.get_dfs_gen g start fuel ≠ .keyError ∧
    MazeVisualizer.get_bfs_gen g goal start fuel ≠ .keyError ∧
    MazeVisualizer.get_dfs_gen g goal start fuel ≠ .keyError := by
  refine ⟨?_, ?_, ?_, ?_⟩
  · have h := bfsLoop_no_keyError g hg fuel [start] [start]
      (by intro x hx; simp at hx; subst hx; exact hs)
    rcases hloop : GraphVisualizer.bfsLoop g fuel [start] [start] with rest | _ | _
    · simp [GraphVisualizer.get_bfs_gen, hloop]
    · exact absurd hloop h
    · simp [GraphVisualizer.get_bfs_gen, hloop]
  · have h := dfsLoop_no_keyError g hg fuel [start] []
      (by intro x hx; simp at hx; subst hx; exact hs)
    rcases hloop : GraphVisualizer.dfsLoop g fuel [start] [] with rest | _ | _
    · simp [GraphVisualizer.get_dfs_gen, hloop]
    · exact absurd hloop h
    · simp [GraphVisualizer.get_dfs_gen, hloop]
  · have h := mazeBfsLoop_no_keyError g goal hg fuel [(start, [start])] [start]
      (by intro e he; simp at he; subst he; exact hs)
    rcases hloop : MazeVisualizer.mazeBfsLoop g goal fuel [(start, [start])] [start] with
      rest | _ | _
    · simp [MazeVisualizer.get_bfs_gen, hloop]
    · exact absurd hloop h
    · simp [MazeVisualizer.get_bfs_gen, hloop]
  · have h := mazeDfsLoop_no_keyError g goal hg fuel [(start, [start])] []
      (by intro e he; simp at he; subst he; exact hs)
    rcases hloop : MazeVisualizer.mazeDfsLoop g goal fuel [(start, [start])] [] with
      rest | _ | _
    · simp [MazeVisualizer.get_dfs_gen, hloop]
    · exact absurd hloop h
    · simp [MazeVisualizer.get_dfs_gen, hloop]

/-- Witness for C10: the repository's `GRAPH` is closed and `A` is a key, so
no generator run on it returns `keyError` (fuel 20 shown). -/
theorem traversal_lookups_safe_witness :
    closedGraph GRAPH ∧ isKey GRAPH ("A") ∧
    (GraphVisualizer.get_bfs_gen GRAPH ("A") 20 ≠ .keyError ∧
     GraphVisualizer.get_dfs_gen GRAPH ("A") 20 ≠ .keyError ∧
     MazeVisualizer.get_bfs_gen GRAPH ("F") ("A") 20 ≠ .keyError ∧
     MazeVisualizer.get_dfs_gen GRAPH ("F") ("A") 20 ≠ .keyError) :=
  ⟨by unfold closedGraph isKey; decide, by unfold isKey; decide,
   traversal_lookups_safe GRAPH ("F") ("A") 20
     (by unfold closedGraph isKey; decide) (by unfold isKey; decide)⟩
